import Mathlib

/-!
Verification of the social-tracking backend (Linking, Tracking, Competing,
Joining concepts and the data routes).

The TypeScript concepts are embedded shallowly: a MongoDB collection becomes a
list of documents together with a fresh-identifier counter, and each concept
method becomes a function from the store state (and a `now` timestamp, where
the code calls `new Date()`) to a result paired with the updated state. A
method that throws is modelled as returning `Except.error e` together with the
unchanged input state, since every assertion in the source runs before any
write.

ObjectId values are modelled as naturals. Where the source manipulates
JavaScript objects whose identity matters (strict equality on `Date` objects,
`Set` membership of `ObjectId` objects, both of which use object identity and
never value equality), a materialised object is modelled as a value paired
with a reference token: every object produced by deserialising a store read is
a fresh object, so it carries a reference token distinct from that of every
other materialised object and of every caller-constructed object.
-/

namespace Backend

/-- Modelled from the spec: the generic document-store capability
(`framework/doc.ts` is not among the analysed sources; the spec lists
create, read-one, read-many with filter and sort, partial-update and delete).
Read-one returns the first stored match in insertion order, as MongoDB
`findOne` does with natural ordering. -/
def readFirst {α : Type} (p : α → Bool) (l : List α) : Option α :=
  l.find? p

/-- Modelled from the spec: `deleteOne` removes the first stored match in
insertion order and is a no-op when nothing matches. -/
def deleteFirst {α : Type} (p : α → Bool) (l : List α) : List α :=
  l.eraseP p

/-- Modelled from the spec: `partialUpdateOne` (and the raw `updateOne` used
for the `push` of competition data) rewrites the first stored match in
insertion order. -/
def updateFirst {α : Type} (p : α → Bool) (f : α → α) : List α → List α
  | [] => []
  | a :: t => if p a then f a :: t else a :: updateFirst p f t

/-- Stable insertion sort; `insertLE le a l` places `a` before the first
element `b` with `le a b`. With `le a b := c a b ≤ 0` this is the JavaScript
stable `Array.sort` under comparator `c`, and it also models a MongoDB sort
option. -/
def insertLE {α : Type} (le : α → α → Bool) (a : α) : List α → List α
  | [] => [a]
  | b :: t => if le a b then a :: b :: t else b :: insertLE le a t

/-- Sort a read result with a stable sort. -/
def sortWith {α : Type} (le : α → α → Bool) (l : List α) : List α :=
  l.foldr (insertLE le) []

/-! ## Linking (src/server concepts, revisions part_005 and part_006)

`link` and `hasLink` follow the revision in `src/unnamed/part_006`
(lines 21-54); `unlink` follows the later revision in
`src/unnamed/part_005` (lines 93-97), the one whose error classes
(`UserAlreadyLinkedError`, `UserNotLinkedError`) the live response layer
imports, in which `unlink` asserts presence before deleting. -/

/-- A stored link record: a user opted to expose an item. -/
structure LinkDoc where
  _id : Nat
  user : Nat
  item : Nat
deriving Repr, DecidableEq

/-- The link collection: documents in insertion order plus the id counter. -/
structure LinkState where
  counter : Nat
  links : List LinkDoc
deriving Repr, DecidableEq

inductive LinkErr where
  | alreadyLinked
  | notLinked
  | notFound
deriving Repr, DecidableEq

namespace Linking

/-- `readOne with user and item` on the link collection. -/
def readOne (s : LinkState) (user item : Nat) : Option LinkDoc :=
  readFirst (fun l => l.user == user && l.item == item) s.links

/-- `LinkingConcept.link`: assert the pair is absent, create the record,
re-read it and return it. -/
def link (s : LinkState) (user item : Nat) :
    Except LinkErr LinkDoc × LinkState :=
  match readOne s user item with
  | some _ => (.error .alreadyLinked, s)
  | none =>
    let d : LinkDoc := ⟨s.counter, user, item⟩
    let s1 : LinkState := ⟨s.counter + 1, s.links ++ [d]⟩
    match readOne s1 user item with
    | some l => (.ok l, s1)
    | none => (.error .notFound, s1)

/-- `LinkingConcept.unlink`: assert the pair is present, then delete it. -/
def unlink (s : LinkState) (user item : Nat) :
    Except LinkErr Unit × LinkState :=
  match readOne s user item with
  | none => (.error .notLinked, s)
  | some _ =>
    (.ok (), ⟨s.counter, deleteFirst (fun l => l.user == user && l.item == item) s.links⟩)

/-- `LinkingConcept.hasLink`: existence check for the pair. -/
def hasLink (s : LinkState) (user item : Nat) : Bool :=
  (readOne s user item).isSome

end Linking

/-! ### List helper lemmas -/

theorem find?_append_none {α : Type} {p : α → Bool} {l₁ : List α} (l₂ : List α)
    (h : l₁.find? p = none) : (l₁ ++ l₂).find? p = l₂.find? p := by
  simp [List.find?_append, h]

theorem eraseP_append_none {α : Type} {p : α → Bool} {l₁ : List α} (l₂ : List α)
    (h : l₁.find? p = none) : (l₁ ++ l₂).eraseP p = l₁ ++ l₂.eraseP p :=
  List.eraseP_append_right l₂ (List.find?_eq_none.mp h)

theorem eraseP_of_find?_none {α : Type} {p : α → Bool} {l : List α}
    (h : l.find? p = none) : l.eraseP p = l :=
  List.eraseP_eq_self_iff.mpr (List.find?_eq_none.mp h)

/-- C3: for every (user, item) pair: after `link` succeeds, `hasLink` is true;
a second `link` without an intervening `unlink` fails with AlreadyLinked and
leaves the store unchanged; `unlink` after a `link` makes `hasLink` false; and
`unlink` when no record exists fails with NotLinked, leaving the store
unchanged. -/
theorem linking_ops (s : LinkState) (u i : Nat) :
    (∀ s1 d, Linking.link s u i = (.ok d, s1) →
      Linking.hasLink s1 u i = true ∧
      Linking.link s1 u i = (.error .alreadyLinked, s1) ∧
      (Linking.unlink s1 u i).1 = .ok () ∧
      Linking.hasLink (Linking.unlink s1 u i).2 u i = false) ∧
    (Linking.hasLink s u i = false →
      Linking.unlink s u i = (.error .notLinked, s)) := by
  constructor
  · intro s1 d hlink
    cases hfound : Linking.readOne s u i with
    | some l => simp [Linking.link, hfound] at hlink
    | none =>
      have hnone : s.links.find? (fun l => l.user == u && l.item == i) = none := hfound
      have hread : Linking.readOne ⟨s.counter + 1, s.links ++ [⟨s.counter, u, i⟩]⟩ u i =
          some ⟨s.counter, u, i⟩ := by
        unfold Linking.readOne readFirst
        simp [find?_append_none _ hnone, List.find?]
      simp only [Linking.link, hfound, hread, Prod.mk.injEq, Except.ok.injEq] at hlink
      obtain ⟨hd, hs1⟩ := hlink
      subst hs1
      subst hd
      refine ⟨?_, ?_, ?_, ?_⟩
      · simp [Linking.hasLink, hread]
      · simp [Linking.link, hread]
      · simp [Linking.unlink, hread]
      · simp only [Linking.unlink, hread]
        simp only [Linking.hasLink, Linking.readOne, readFirst, deleteFirst]
        rw [eraseP_append_none _ hnone]
        have herase : List.eraseP (fun l => l.user == u && l.item == i)
            [(⟨s.counter, u, i⟩ : LinkDoc)] = [] := by
          simp
        rw [herase, List.append_nil, hnone]
        rfl
  · intro hno
    cases hfound : Linking.readOne s u i with
    | some l => simp [Linking.hasLink, hfound] at hno
    | none => simp [Linking.unlink, hfound]

/-- Witness for `linking_ops` at a concrete input. -/
theorem linking_ops_witness :
    Linking.hasLink ⟨1, [⟨0, 0, 1⟩]⟩ 0 1 = true ∧
    Linking.unlink ⟨0, []⟩ 0 1 = (.error .notLinked, ⟨0, []⟩) :=
  ⟨((linking_ops ⟨0, []⟩ 0 1).1 ⟨1, [⟨0, 0, 1⟩]⟩ ⟨0, 0, 1⟩ rfl).1,
   (linking_ops ⟨0, []⟩ 0 1).2 rfl⟩

/-! ## Joining (src/server/concepts/joining.ts)

The membership collection holds one document per (user, group) enrolment.
`getMembers` issues the filter `with id equal to group` although
`MembershipDoc` has fields `user` and `group` and no `id` field; a MongoDB
equality filter on a field the documents do not carry matches only the value
null, so that filter matches no stored document. The filter is therefore
modelled structurally, with one slot per field name the source mentions. -/

/-- A stored membership record. -/
structure MemDoc where
  _id : Nat
  user : Nat
  group : Nat
deriving Repr, DecidableEq

/-- The membership collection. -/
structure JoinState where
  counter : Nat
  docs : List MemDoc
deriving Repr, DecidableEq

inductive JoinErr where
  | alreadyMember
  | notMember
deriving Repr, DecidableEq

/-- A MongoDB equality filter over the membership collection: optional
constraints on the `user` and `group` fields, and on the key `id`, which no
membership document carries. -/
structure MemFilter where
  userF : Option Nat
  groupF : Option Nat
  idF : Option Nat
deriving Repr, DecidableEq

/-- Whether a membership document matches a filter. A constraint on the
missing `id` key matches no document (MongoDB matches a missing field only
against null, and the filter value here is always an ObjectId). -/
def memMatches (f : MemFilter) (d : MemDoc) : Bool :=
  (match f.userF with | none => true | some u => d.user == u) &&
  (match f.groupF with | none => true | some g => d.group == g) &&
  f.idF.isNone

namespace Joining

/-- `readMany` over the membership collection, insertion order. -/
def readMany (s : JoinState) (f : MemFilter) : List MemDoc :=
  s.docs.filter (memMatches f)

/-- `readOne with user and group`. -/
def readOnePair (s : JoinState) (u g : Nat) : Option MemDoc :=
  readFirst (fun d => d.user == u && d.group == g) s.docs

/-- `JoiningConcept.join`: assert the pair is absent, create the record, then
re-read the created record by its id. -/
def join (s : JoinState) (u g : Nat) :
    Except JoinErr (Option MemDoc) × JoinState :=
  match readOnePair s u g with
  | some _ => (.error .alreadyMember, s)
  | none =>
    (.ok (readFirst (fun x => x._id == s.counter) (s.docs ++ [⟨s.counter, u, g⟩])),
     ⟨s.counter + 1, s.docs ++ [⟨s.counter, u, g⟩]⟩)

/-- `JoiningConcept.leave`: assert the pair is present, then delete it. -/
def leave (s : JoinState) (u g : Nat) : Except JoinErr Unit × JoinState :=
  match readOnePair s u g with
  | none => (.error .notMember, s)
  | some _ =>
    (.ok (), ⟨s.counter, deleteFirst (fun d => d.user == u && d.group == g) s.docs⟩)

/-- `JoiningConcept.getMembers`: `readMany with id equal to group`, then map
each record to its user field. -/
def getMembers (s : JoinState) (g : Nat) : List Nat :=
  (readMany s ⟨none, none, some g⟩).map (·.user)

/-- `JoiningConcept.getUserMemberships`: `readMany with user`. -/
def getUserMemberships (s : JoinState) (u : Nat) : List MemDoc :=
  readMany s ⟨some u, none, none⟩

/-- Number of stored membership records for a (user, group) pair. -/
def countPair (s : JoinState) (u g : Nat) : Nat :=
  s.docs.countP (fun d => d.user == u && d.group == g)

/-- States of the membership store reachable from the empty store through
`join` and `leave`. -/
inductive Reach : JoinState → Prop where
  | empty : Reach ⟨0, []⟩
  | joinStep (s : JoinState) (u g : Nat) : Reach s → Reach (join s u g).2
  | leaveStep (s : JoinState) (u g : Nat) : Reach s → Reach (leave s u g).2

end Joining

theorem countP_of_find?_none {α : Type} {p : α → Bool} {l : List α}
    (h : l.find? p = none) : l.countP p = 0 := by
  rw [List.countP_eq_zero]
  exact List.find?_eq_none.mp h

theorem countP_eraseP_le {α : Type} (p q : α → Bool) (l : List α) :
    (l.eraseP p).countP q ≤ l.countP q := by
  induction l with
  | nil => simp
  | cons a t ih =>
    by_cases hp : p a
    · rw [List.eraseP_cons_of_pos hp]
      by_cases hq : q a
      · rw [List.countP_cons_of_pos _ _ hq]; omega
      · rw [List.countP_cons_of_neg _ _ hq]
    · rw [List.eraseP_cons_of_neg hp]
      by_cases hq : q a
      · rw [List.countP_cons_of_pos _ _ hq, List.countP_cons_of_pos _ _ hq]; omega
      · rw [List.countP_cons_of_neg _ _ hq, List.countP_cons_of_neg _ _ hq]; exact ih

theorem countP_eraseP_found {α : Type} {p : α → Bool} {l : List α} {a : α}
    (h : l.find? p = some a) : (l.eraseP p).countP p = l.countP p - 1 := by
  induction l with
  | nil => simp [List.find?] at h
  | cons b t ih =>
    by_cases hp : p b
    · rw [List.eraseP_cons_of_pos hp, List.countP_cons_of_pos _ _ hp]
      omega
    · rw [List.find?_cons_of_neg _ hp] at h
      rw [List.eraseP_cons_of_neg hp, List.countP_cons_of_neg _ _ hp,
        List.countP_cons_of_neg _ _ hp]
      exact ih h

/-- C6: `join` fails with AlreadyMember iff the pair exists, and otherwise
creates exactly one record; `leave` fails with NotMember iff no pair record
exists (leaving the store unchanged), and otherwise removes the first pair
record; every store reachable from the empty store holds at most one record
per (user, group) pair. -/
theorem joining_membership (s : JoinState) (u g : Nat) :
    ((Joining.join s u g).1 = .error .alreadyMember ↔
      (Joining.readOnePair s u g).isSome = true) ∧
    ((Joining.readOnePair s u g).isSome = false →
      (Joining.join s u g).2.docs = s.docs ++ [⟨s.counter, u, g⟩]) ∧
    ((Joining.leave s u g).1 = .error .notMember ↔
      (Joining.readOnePair s u g).isSome = false) ∧
    ((Joining.readOnePair s u g).isSome = false → (Joining.leave s u g).2 = s) ∧
    ((Joining.readOnePair s u g).isSome = true →
      (Joining.leave s u g).2.docs =
        deleteFirst (fun d => d.user == u && d.group == g) s.docs ∧
      Joining.countPair (Joining.leave s u g).2 u g = Joining.countPair s u g - 1) ∧
    (∀ t, Joining.Reach t → ∀ u1 g1, Joining.countPair t u1 g1 ≤ 1) := by
  refine ⟨?_, ?_, ?_, ?_, ?_, ?_⟩
  · cases hf : Joining.readOnePair s u g with
    | some m => simp [Joining.join, hf]
    | none => simp [Joining.join, hf]
  · intro hno
    cases hf : Joining.readOnePair s u g with
    | some m => rw [hf] at hno; simp at hno
    | none => simp [Joining.join, hf]
  · cases hf : Joining.readOnePair s u g with
    | some m => simp [Joining.leave, hf]
    | none => simp [Joining.leave, hf]
  · intro hno
    cases hf : Joining.readOnePair s u g with
    | some m => rw [hf] at hno; simp at hno
    | none => simp [Joining.leave, hf]
  · intro hyes
    cases hf : Joining.readOnePair s u g with
    | none => rw [hf] at hyes; simp at hyes
    | some m =>
      refine ⟨by simp [Joining.leave, hf], ?_⟩
      simp only [Joining.leave, hf, Joining.countPair, deleteFirst]
      exact countP_eraseP_found hf
  · intro t ht
    induction ht with
    | empty => intro u1 g1; simp [Joining.countPair]
    | joinStep s1 u1 g1 _ ih =>
      intro u2 g2
      cases hf : Joining.readOnePair s1 u1 g1 with
      | some m => simpa [Joining.join, hf] using ih u2 g2
      | none =>
        simp only [Joining.join, hf, Joining.countPair, List.countP_append]
        by_cases hsame : u2 = u1 ∧ g2 = g1
        · obtain ⟨h1, h2⟩ := hsame
          subst h1; subst h2
          have h0 : s1.docs.countP (fun d => d.user == u2 && d.group == g2) = 0 :=
            countP_of_find?_none hf
          have h1 : List.countP (fun d => d.user == u2 && d.group == g2)
              [(⟨s1.counter, u2, g2⟩ : MemDoc)] ≤ 1 := by
            simp [List.countP_cons]
          have := ih u2 g2
          simp only [Joining.countPair] at this
          omega
        · have hone : List.countP (fun d => d.user == u2 && d.group == g2)
              [(⟨s1.counter, u1, g1⟩ : MemDoc)] = 0 := by
            rcases not_and_or.mp hsame with h | h <;>
              simp [List.countP_cons, List.countP_nil] <;>
              intro hu hg
            · exact absurd hu.symm h
            · exact absurd hg.symm h
          have := ih u2 g2
          simp only [Joining.countPair] at this
          omega
    | leaveStep s1 u1 g1 _ ih =>
      intro u2 g2
      cases hf : Joining.readOnePair s1 u1 g1 with
      | none => simpa [Joining.leave, hf] using ih u2 g2
      | some m =>
        simp only [Joining.leave, hf, Joining.countPair, deleteFirst]
        calc (s1.docs.eraseP (fun d => d.user == u1 && d.group == g1)).countP
              (fun d => d.user == u2 && d.group == g2)
            ≤ s1.docs.countP (fun d => d.user == u2 && d.group == g2) :=
              countP_eraseP_le _ _ _
          _ ≤ 1 := ih u2 g2

/-- Witness for `joining_membership` at a concrete input. -/
theorem joining_membership_witness :
    (Joining.join ⟨0, []⟩ 1 7).2.docs = [] ++ [⟨0, 1, 7⟩] ∧
    (Joining.leave ⟨1, [⟨0, 1, 7⟩]⟩ 1 7).2.docs =
      deleteFirst (fun d => d.user == 1 && d.group == 7) [⟨0, 1, 7⟩] :=
  ⟨(joining_membership ⟨0, []⟩ 1 7).2.1 rfl,
   ((joining_membership ⟨1, [⟨0, 1, 7⟩]⟩ 1 7).2.2.2.2.1 rfl).1⟩

/-- C9: `getMembers` filters the membership collection on the key `id`, which
membership documents do not have, so it returns the empty list even for a
group with a stored member: here user 1 is a member of group 7 (the store
holds exactly one record for the pair), yet `getMembers` of group 7 is
empty. -/
theorem getMembers_misses_members :
    Joining.getMembers ⟨1, [⟨0, 1, 7⟩]⟩ 7 = [] ∧
    Joining.countPair ⟨1, [⟨0, 1, 7⟩]⟩ 1 7 = 1 :=
  ⟨rfl, rfl⟩

/-! ## Competing (src/server/concepts/competing.ts)

Dates are modelled as integer timestamps; each method that compares against
`new Date()` takes the current time `now` as an argument. The comparisons in
the source are the relational operators on `Date`, which coerce to the
numeric timestamp, so value comparison is faithful here. -/

/-- A stored competition. -/
structure CompDoc where
  _id : Nat
  name : String
  owner : Nat
  endDate : Int
  data : List Nat
  dateCreated : Int
  dateUpdated : Int
deriving Repr, DecidableEq

/-- The competition collection. -/
structure CompState where
  counter : Nat
  comps : List CompDoc
deriving Repr, DecidableEq

inductive CompErr where
  | notFound
  | competitionEnded
  | duplicateName
  | dateNotInFuture
  | alreadyOwner
  | createFailed
deriving Repr, DecidableEq

namespace Competing

/-- `readOne with _id` on the competition collection. -/
def findById (s : CompState) (id : Nat) : Option CompDoc :=
  readFirst (fun c => c._id == id) s.comps

/-- `readOne with name` on the competition collection. -/
def findByName (s : CompState) (n : String) : Option CompDoc :=
  readFirst (fun c => c.name == n) s.comps

/-- `CompetingConcept.create`: assert the name is unused and the end date not
before now (a strict comparison in the source), insert with an empty data
list, then re-read by name. -/
def create (s : CompState) (owner : Nat) (name : String) (endDate now : Int) :
    Except CompErr CompDoc × CompState :=
  if (findByName s name).isSome then (.error .duplicateName, s)
  else if endDate < now then (.error .dateNotInFuture, s)
  else
    let d : CompDoc := ⟨s.counter, name, owner, endDate, [], now, now⟩
    let s1 : CompState := ⟨s.counter + 1, s.comps ++ [d]⟩
    match findByName s1 name with
    | some c => (.ok c, s1)
    | none => (.error .createFailed, s1)

/-- `assertNameUnique` inside `assertValidUpdateInfo`. -/
def checkName (s : CompState) : Option String → Option CompErr
  | none => none
  | some n => if (findByName s n).isSome then some .duplicateName else none

/-- `assertUserIsNotOwner` inside `assertValidUpdateInfo`. -/
def checkOwner (s : CompState) (id : Nat) : Option Nat → Option CompErr
  | none => none
  | some o =>
    match findById s id with
    | none => some .notFound
    | some c => if c.owner == o then some .alreadyOwner else none

/-- `assertDateIsInFuture` inside `assertValidUpdateInfo`. -/
def checkEndDate (now : Int) : Option Int → Option CompErr
  | none => none
  | some e => if e < now then some .dateNotInFuture else none

/-- `assertValidUpdateInfo`: validate each supplied field in source order. -/
def assertValidUpdateInfo (s : CompState) (id : Nat) (nameQ : Option String)
    (ownerQ : Option Nat) (endQ : Option Int) (now : Int) : Option CompErr :=
  ((checkName s nameQ).or (checkOwner s id ownerQ)).or (checkEndDate now endQ)

/-- `partialUpdateOne` payload: overwrite exactly the supplied fields and
refresh the last-modified stamp. -/
def applyUpdate (nameQ : Option String) (ownerQ : Option Nat) (endQ : Option Int)
    (now : Int) (c : CompDoc) : CompDoc :=
  { c with
    name := nameQ.getD c.name
    owner := ownerQ.getD c.owner
    endDate := endQ.getD c.endDate
    dateUpdated := now }

/-- `CompetingConcept.update`: `assertCompetitionIsActive`, then
`assertValidUpdateInfo`, then the partial update. -/
def update (s : CompState) (id : Nat) (nameQ : Option String) (ownerQ : Option Nat)
    (endQ : Option Int) (now : Int) : Except CompErr String × CompState :=
  match findById s id with
  | none => (.error .notFound, s)
  | some c =>
    if c.endDate < now then (.error .competitionEnded, s)
    else
      match assertValidUpdateInfo s id nameQ ownerQ endQ now with
      | some e => (.error e, s)
      | none =>
        (.ok "Competition successfully updated!",
         ⟨s.counter, updateFirst (fun x => x._id == id) (applyUpdate nameQ ownerQ endQ now) s.comps⟩)

/-- `CompetingConcept.inputData`: `assertCompetitionIsActive`, then push the
data reference onto the competition with a raw collection update (which does
not touch the last-modified stamp). -/
def inputData (s : CompState) (id dp : Nat) (now : Int) :
    Except CompErr String × CompState :=
  match findById s id with
  | none => (.error .notFound, s)
  | some c =>
    if c.endDate < now then (.error .competitionEnded, s)
    else
      (.ok "Data successfully added!",
       ⟨s.counter, updateFirst (fun x => x._id == id)
          (fun x => { x with data := x.data ++ [dp] }) s.comps⟩)

/-- `CompetingConcept.delete`: `deleteOne with _id`, no existence check. -/
def delete (s : CompState) (id : Nat) : Except CompErr String × CompState :=
  (.ok "Competition successfully deleted!",
   ⟨s.counter, deleteFirst (fun c => c._id == id) s.comps⟩)

end Competing

/-- C4: for every stored competition whose end date is strictly in the past,
every `update` call and every `inputData` call fails with CompetitionEnded,
and the store is unchanged by the failed call. -/
theorem ended_competition_rejects (s : CompState) (id : Nat) (c : CompDoc) (now : Int)
    (hfind : Competing.findById s id = some c) (hend : c.endDate < now)
    (nameQ : Option String) (ownerQ : Option Nat) (endQ : Option Int) (dp : Nat) :
    Competing.update s id nameQ ownerQ endQ now = (.error .competitionEnded, s) ∧
    Competing.inputData s id dp now = (.error .competitionEnded, s) := by
  constructor
  · simp [Competing.update, hfind, hend]
  · simp [Competing.inputData, hfind, hend]

/-- Witness for `ended_competition_rejects` at a concrete input. -/
theorem ended_competition_rejects_witness :
    Competing.update ⟨1, [⟨0, "B", 2, 1, [], 0, 0⟩]⟩ 0 none none none 50 =
      (.error .competitionEnded, ⟨1, [⟨0, "B", 2, 1, [], 0, 0⟩]⟩) ∧
    Competing.inputData ⟨1, [⟨0, "B", 2, 1, [], 0, 0⟩]⟩ 0 9 50 =
      (.error .competitionEnded, ⟨1, [⟨0, "B", 2, 1, [], 0, 0⟩]⟩) :=
  ended_competition_rejects ⟨1, [⟨0, "B", 2, 1, [], 0, 0⟩]⟩ 0
    ⟨0, "B", 2, 1, [], 0, 0⟩ 50 rfl (by decide) none none none 9

/-- C5 counterexample: the source compares with a strict less-than, so a
creation whose end date equals the current instant succeeds, while the claim
says it must fail with DateNotInFuture. -/
theorem create_at_now_succeeds :
    Competing.create ⟨0, []⟩ 1 "spring" 100 100 =
      (.ok ⟨0, "spring", 1, 100, [], 100, 100⟩,
       ⟨1, [⟨0, "spring", 1, 100, [], 100, 100⟩]⟩) := rfl

/-- C5 as amended: `create` fails with DuplicateName when a stored competition
already has the name; otherwise it fails with DateNotInFuture exactly when the
end date is strictly before now; otherwise it creates and returns a
competition with the given owner, name and end date and an empty data list.
Creation succeeds when the end date equals now. -/
theorem create_spec (s : CompState) (owner : Nat) (name : String) (endDate now : Int) :
    ((Competing.findByName s name).isSome = true →
      Competing.create s owner name endDate now = (.error .duplicateName, s)) ∧
    ((Competing.findByName s name).isSome = false → endDate < now →
      Competing.create s owner name endDate now = (.error .dateNotInFuture, s)) ∧
    ((Competing.findByName s name).isSome = false → ¬endDate < now →
      Competing.create s owner name endDate now =
        (.ok ⟨s.counter, name, owner, endDate, [], now, now⟩,
         ⟨s.counter + 1, s.comps ++ [⟨s.counter, name, owner, endDate, [], now, now⟩]⟩)) := by
  refine ⟨?_, ?_, ?_⟩
  · intro hdup
    simp [Competing.create, hdup]
  · intro hno hlt
    simp [Competing.create, hno, hlt]
  · intro hno hge
    have hnone : s.comps.find? (fun c => c.name == name) = none := by
      cases hfb : Competing.findByName s name with
      | some c => rw [hfb] at hno; simp at hno
      | none => exact hfb
    have hread : Competing.findByName
        ⟨s.counter + 1, s.comps ++ [⟨s.counter, name, owner, endDate, [], now, now⟩]⟩ name =
        some ⟨s.counter, name, owner, endDate, [], now, now⟩ := by
      unfold Competing.findByName readFirst
      simp [find?_append_none _ hnone, List.find?]
    simp [Competing.create, hno, hge, hread]

/-- Witness for `create_spec` at a concrete input. -/
theorem create_spec_witness :
    Competing.create ⟨0, []⟩ 1 "spring" 200 100 =
      (.ok ⟨0, "spring", 1, 200, [], 100, 100⟩,
       ⟨1, [⟨0, "spring", 1, 200, [], 100, 100⟩]⟩) ∧
    Competing.create ⟨1, [⟨0, "spring", 1, 200, [], 100, 100⟩]⟩ 2 "spring" 300 100 =
      (.error .duplicateName, ⟨1, [⟨0, "spring", 1, 200, [], 100, 100⟩]⟩) ∧
    Competing.create ⟨0, []⟩ 1 "spring" 50 100 = (.error .dateNotInFuture, ⟨0, []⟩) :=
  ⟨(create_spec ⟨0, []⟩ 1 "spring" 200 100).2.2 (by decide) (by decide),
   (create_spec ⟨1, [⟨0, "spring", 1, 200, [], 100, 100⟩]⟩ 2 "spring" 300 100).1 (by decide),
   (create_spec ⟨0, []⟩ 1 "spring" 50 100).2.1 (by decide) (by decide)⟩

/-! ## Tracking (src/server/concepts/tracking.ts, second revision)

The store keeps date and score values; a read materialises fresh JavaScript
objects. `getData` compares the materialised `date` of each document against
the caller-supplied `Date` with strict inequality, which on two objects is an
identity test, so it is modelled on the reference tokens; the range bounds are
compared with relational operators, which coerce to the timestamp value. -/

/-- A stored data point. -/
structure TrackDoc where
  _id : Nat
  user : Nat
  date : Int
  score : Int
  dateCreated : Int
  dateUpdated : Int
deriving Repr, DecidableEq

/-- The data-point collection. -/
structure TrackState where
  counter : Nat
  docs : List TrackDoc
deriving Repr, DecidableEq

inductive TrackErr where
  | notFound
deriving Repr, DecidableEq

/-- `SortOptions` from the source. -/
inductive SortOptions where
  | score
  | date
deriving Repr, DecidableEq

/-- A materialised JavaScript `Date` object: its timestamp value and its
object-identity token. -/
structure DateInst where
  time : Int
  ref : Nat
deriving Repr, DecidableEq

/-- A data-point document materialised by a read: each object produced by
deserialisation is fresh, so the document and its `date` each carry a
reference token distinct from that of any other materialised object. -/
structure MatData where
  _id : Nat
  idRef : Nat
  user : Nat
  date : DateInst
  score : Int
  dateCreated : Int
  dateUpdated : Int
deriving Repr, DecidableEq

/-- Materialise a read result, handing each document the reference tokens
`base + 2i` (for its `_id` object) and `base + 2i + 1` (for its `date`
object). -/
def matTrack (base : Nat) (l : List TrackDoc) : List MatData :=
  l.enum.map (fun pr =>
    ⟨pr.2._id, base + 2 * pr.1, pr.2.user, ⟨pr.2.date, base + 2 * pr.1 + 1⟩,
     pr.2.score, pr.2.dateCreated, pr.2.dateUpdated⟩)

/-- JavaScript strict inequality on two `Date` objects: an identity test,
true exactly when the two are different objects. -/
def dateObjNe (a b : DateInst) : Bool :=
  a.ref != b.ref

/-- The redacted representation: the spread that drops the `user` field and
keeps every other field. -/
structure RedactedData where
  _id : Nat
  idRef : Nat
  date : DateInst
  score : Int
  dateCreated : Int
  dateUpdated : Int
deriving Repr, DecidableEq

namespace Tracking

/-- `TrackingConcept.log`: create the data point, then re-read
`with user and date` (a value-level store query) and return that record. -/
def log (s : TrackState) (user : Nat) (date score now : Int) :
    Except TrackErr TrackDoc × TrackState :=
  let d : TrackDoc := ⟨s.counter, user, date, score, now, now⟩
  let s1 : TrackState := ⟨s.counter + 1, s.docs ++ [d]⟩
  match readFirst (fun x => x.user == user && x.date == date) s1.docs with
  | some r => (.ok r, s1)
  | none => (.error .notFound, s1)

/-- `TrackingConcept.getData`: read all data points most-recent-id-first, then
filter by the supplied predicates, then optionally sort descending by score or
by date. The date-equality conjunct keeps a document only when its
materialised date object IS the caller-supplied object. -/
def getData (docs : List TrackDoc) (base : Nat) (userQ : Option Nat)
    (dateQ : Option DateInst) (rangeQ : Option (DateInst × DateInst))
    (sortQ : Option SortOptions) : List MatData :=
  let allData := matTrack base (sortWith (fun a b => decide (b._id ≤ a._id)) docs)
  let filtered := allData.filter (fun d =>
    (match userQ with | some u => d.user == u | none => true) &&
    (match dateQ with | some dt => !dateObjNe d.date dt | none => true) &&
    (match rangeQ with
     | some r => !(decide (d.date.time < r.1.time) || decide (r.2.time < d.date.time))
     | none => true))
  match sortQ with
  | none => filtered
  | some .score => sortWith (fun a b => decide (b.score ≤ a.score)) filtered
  | some .date => sortWith (fun a b => decide (b.date.time ≤ a.date.time)) filtered

/-- `TrackingConcept.redactUser`: the spread dropping the `user` field. -/
def redactUser (d : MatData) : RedactedData :=
  ⟨d._id, d.idRef, d.date, d.score, d.dateCreated, d.dateUpdated⟩

/-- `TrackingConcept.delete`: `deleteOne with _id`, no existence check. -/
def delete (s : TrackState) (id : Nat) : Except TrackErr String × TrackState :=
  (.ok "Data successfully deleted!", ⟨s.counter, deleteFirst (fun x => x._id == id) s.docs⟩)

end Tracking

/-- C8: a store already holding a data point for user 1 on date 5. `log` of a
new score 42 on the same date creates the new data point (id 1, score 42) but
returns the earlier record (id 0, score 10), because the re-read
`with user and date` returns the first stored match. -/
theorem log_returns_first_same_date_record :
    (Tracking.log ⟨1, [⟨0, 1, 5, 10, 0, 0⟩]⟩ 1 5 42 9).1 = .ok ⟨0, 1, 5, 10, 0, 0⟩ ∧
    (Tracking.log ⟨1, [⟨0, 1, 5, 10, 0, 0⟩]⟩ 1 5 42 9).2.docs =
      [⟨0, 1, 5, 10, 0, 0⟩, ⟨1, 1, 5, 42, 9, 9⟩] :=
  ⟨rfl, rfl⟩

/-- C7: a store holding one data point with date value 5. Supplying the very
date 5 as the exact-date filter (necessarily a caller-constructed `Date`
object, hence a different object from the materialised one) returns the empty
list, while the unfiltered call returns the data point; so the exact-date
filter drops every document instead of selecting the matching ones. -/
theorem getData_date_filter_drops_everything :
    Tracking.getData [⟨0, 1, 5, 10, 0, 0⟩] 100 none (some ⟨5, 0⟩) none none = [] ∧
    Tracking.getData [⟨0, 1, 5, 10, 0, 0⟩] 100 none none none none =
      [⟨0, 100, 1, ⟨5, 101⟩, 10, 0, 0⟩] :=
  ⟨rfl, rfl⟩

theorem eraseP_key_eraseP {α : Type} (key : α → Nat) (id : Nat) (l : List α)
    (h : (l.map key).Nodup) :
    (l.eraseP (fun a => key a == id)).eraseP (fun a => key a == id) =
      l.eraseP (fun a => key a == id) := by
  induction l with
  | nil => rfl
  | cons a t ih =>
    rw [List.map_cons, List.nodup_cons] at h
    by_cases hp : (key a == id) = true
    · rw [List.eraseP_cons, hp, cond_true]
      apply eraseP_of_find?_none
      rw [List.find?_eq_none]
      intro x hx hxp
      have hkeya : key a = id := by simpa using hp
      have hkeyx : key x = id := by simpa using hxp
      exact h.1 (hkeya ▸ hkeyx ▸ List.mem_map_of_mem key hx)
    · have hpf : (key a == id) = false := by simpa using hp
      rw [List.eraseP_cons, hpf, cond_false, List.eraseP_cons, hpf, cond_false, ih h.2]

/-- C10: `Competing.delete` and `Tracking.delete` always return the success
message; when no document carries the id, the store is unchanged; and (for
stores whose ids are distinct, as every reachable store is) deleting twice
equals deleting once. -/
theorem delete_total_idempotent (cs : CompState) (ts : TrackState) (id : Nat)
    (hc : (cs.comps.map (·._id)).Nodup) (ht : (ts.docs.map (·._id)).Nodup) :
    (Competing.delete cs id).1 = .ok "Competition successfully deleted!" ∧
    (Tracking.delete ts id).1 = .ok "Data successfully deleted!" ∧
    (Competing.findById cs id = none → (Competing.delete cs id).2 = cs) ∧
    (ts.docs.find? (fun x => x._id == id) = none → (Tracking.delete ts id).2 = ts) ∧
    (Competing.delete (Competing.delete cs id).2 id).2 = (Competing.delete cs id).2 ∧
    (Tracking.delete (Tracking.delete ts id).2 id).2 = (Tracking.delete ts id).2 := by
  refine ⟨rfl, rfl, ?_, ?_, ?_, ?_⟩
  · intro hnone
    simp only [Competing.delete, deleteFirst]
    rw [eraseP_of_find?_none hnone]
  · intro hnone
    simp only [Tracking.delete, deleteFirst]
    rw [eraseP_of_find?_none hnone]
  · simp only [Competing.delete, deleteFirst]
    rw [eraseP_key_eraseP (·._id) id cs.comps hc]
  · simp only [Tracking.delete, deleteFirst]
    rw [eraseP_key_eraseP (·._id) id ts.docs ht]

/-- Witness for `delete_total_idempotent` at a concrete input. -/
theorem delete_total_idempotent_witness :
    (Competing.delete ⟨1, [⟨0, "A", 1, 5, [], 0, 0⟩]⟩ 9).2 =
      ⟨1, [⟨0, "A", 1, 5, [], 0, 0⟩]⟩ ∧
    (Tracking.delete ⟨1, [⟨0, 1, 5, 10, 0, 0⟩]⟩ 9).2 = ⟨1, [⟨0, 1, 5, 10, 0, 0⟩]⟩ :=
  ⟨(delete_total_idempotent ⟨1, [⟨0, "A", 1, 5, [], 0, 0⟩]⟩ ⟨1, [⟨0, 1, 5, 10, 0, 0⟩]⟩ 9
      (by decide) (by decide)).2.2.1 rfl,
   (delete_total_idempotent ⟨1, [⟨0, "A", 1, 5, [], 0, 0⟩]⟩ ⟨1, [⟨0, 1, 5, 10, 0, 0⟩]⟩ 9
      (by decide) (by decide)).2.2.2.1 rfl⟩

/-! ## Routes (src/unnamed/part_009)

The route layer composes the concepts over a combined state. Reference
tokens for the objects a route materialises are allocated disjointly: the
caller-constructed query `Date` objects get tokens 0-2, the Tracking read
gets tokens from 100, and the Linking read gets tokens above those — every
one of these JavaScript objects is distinct from every other. -/

/-- A materialised link record: its `item` ObjectId is a fresh object
carrying an identity token. -/
structure MatLink where
  _id : Nat
  user : Nat
  item : Nat
  itemRef : Nat
deriving Repr, DecidableEq

/-- Materialise a link read, handing the `item` object of the i-th record the
token `base + i`. -/
def matLinks (base : Nat) (l : List LinkDoc) : List MatLink :=
  l.enum.map (fun pr => ⟨pr.2._id, pr.2.user, pr.2.item, base + pr.1⟩)

/-- `LinkingConcept.getLinks`: all links most-recent-id-first, materialised
fresh. -/
def Linking.getLinks (s : LinkState) (base : Nat) : List MatLink :=
  matLinks base (sortWith (fun a b => decide (b._id ≤ a._id)) s.links)

/-- A returned data item: either the full document or the redacted
representation, whose owner field is absent (not null). -/
inductive DataOut where
  | full (d : MatData)
  | redacted (r : RedactedData)
deriving Repr, DecidableEq

/-- The combined application state. -/
structure Sys where
  tracking : TrackState
  competing : CompState
  joining : JoinState
  linking : LinkState
deriving Repr, DecidableEq

inductive RouteErr where
  | trackFailed
  | linkFailed
deriving Repr, DecidableEq

namespace Routes

/-- GET /data: query Tracking, build the JavaScript `Set` of the `item`
ObjectId objects of all links, and return each data item in full when the set
holds the identity of the freshly materialised `_id` object of the item or
the viewer equals the owner, redacting the owner field otherwise. `Set`
membership of objects is an identity test, modelled on the reference
tokens. -/
def getData (sys : Sys) (viewer : Nat) (usernameOid : Option Nat)
    (dateQ : Option Int) (rangeQ : Option (Int × Int))
    (sortQ : Option SortOptions) : List DataOut :=
  let dateObj : Option DateInst := dateQ.map (fun t => ⟨t, 0⟩)
  let rangeObj : Option (DateInst × DateInst) := rangeQ.map (fun p => (⟨p.1, 1⟩, ⟨p.2, 2⟩))
  let data := Tracking.getData sys.tracking.docs 100 usernameOid dateObj rangeObj sortQ
  let linkedItems := Linking.getLinks sys.linking (100 + 2 * sys.tracking.docs.length)
  data.map (fun d =>
    if linkedItems.any (fun l => l.itemRef == d.idRef) || d.user == viewer
    then DataOut.full d
    else DataOut.redacted (Tracking.redactUser d))

/-- POST /data: log the data point, then fan the returned record's id out to
every competition the user is a member of. The fan-out is fire-and-forget in
the source: each `inputData` rejection is an isolated unhandled rejection, so
its only effect is each successful per-membership write, folded here in
membership order. Afterwards, when linking was requested, link the returned
record to the user. -/
def logData (sys : Sys) (user : Nat) (isLinked : Bool) (date score now : Int) :
    Except RouteErr TrackDoc × Sys :=
  match Tracking.log sys.tracking user date score now with
  | (.error _, ts) => (.error .trackFailed, { sys with tracking := ts })
  | (.ok d, ts) =>
    let memberships := Joining.getUserMemberships sys.joining user
    let cs := memberships.foldl
      (fun cs m => (Competing.inputData cs m.group d._id now).2) sys.competing
    let sys1 := { sys with tracking := ts, competing := cs }
    if isLinked then
      match Linking.link sys.linking user d._id with
      | (.error _, ls) => (.error .linkFailed, { sys1 with linking := ls })
      | (.ok _, ls) => (.ok d, { sys1 with linking := ls })
    else (.ok d, sys1)

end Routes

/-- C1: user 2 owns data point 0 and holds a Link for it; viewer 3 issues
GET /data with no filters. The claim says the owner field must be present,
but the route returns the item redacted: the JavaScript `Set` built from the
materialised `link.item` objects never contains the separately materialised
`_id` object of the data point, so a Link never reveals the owner. -/
theorem getData_strips_owner_despite_link :
    Routes.getData
        ⟨⟨1, [⟨0, 2, 5, 10, 0, 0⟩]⟩, ⟨0, []⟩, ⟨0, []⟩, ⟨1, [⟨0, 2, 0⟩]⟩⟩
        3 none none none none =
      [DataOut.redacted ⟨0, 100, ⟨5, 101⟩, 10, 0, 0⟩] ∧
    Linking.hasLink ⟨1, [⟨0, 2, 0⟩]⟩ 2 0 = true :=
  ⟨rfl, rfl⟩

theorem find?_updateFirst_self {α : Type} {p : α → Bool} {f : α → α} {l : List α} {a : α}
    (hpf : ∀ x, p (f x) = p x) (h : l.find? p = some a) :
    (updateFirst p f l).find? p = some (f a) := by
  induction l with
  | nil => simp [List.find?] at h
  | cons b t ih =>
    by_cases hp : p b
    · rw [List.find?_cons_of_pos _ hp] at h
      have hb : b = a := by injection h
      subst hb
      simp only [updateFirst, hp, if_true]
      exact List.find?_cons_of_pos _ (by rw [hpf b]; exact hp)
    · rw [List.find?_cons_of_neg _ hp] at h
      have huf : updateFirst p f (b :: t) = b :: updateFirst p f t := by
        simp [updateFirst, hp]
      rw [huf, List.find?_cons_of_neg _ hp]
      exact ih h

theorem find?_updateFirst_disjoint {α : Type} {p q : α → Bool} {f : α → α} {l : List α}
    (hdisj : ∀ x, q x = true → p x = false ∧ p (f x) = false) :
    (updateFirst q f l).find? p = l.find? p := by
  induction l with
  | nil => rfl
  | cons b t ih =>
    by_cases hq : q b
    · simp only [updateFirst, hq, if_true]
      rw [List.find?_cons_of_neg _ (by rw [(hdisj b hq).2]; simp),
        List.find?_cons_of_neg _ (by rw [(hdisj b hq).1]; simp)]
    · have huf : updateFirst q f (b :: t) = b :: updateFirst q f t := by
        simp [updateFirst, hq]
      rw [huf]
      by_cases hp : p b
      · rw [List.find?_cons_of_pos _ hp, List.find?_cons_of_pos _ hp]
      · rw [List.find?_cons_of_neg _ hp, List.find?_cons_of_neg _ hp]
        exact ih

/-- The concrete state of the C2 scenario: user 1 already has a data point
(id 0) on date 7, is a member of active competition A (id 10, end date 100)
and of ended competition B (id 11, end date 1). -/
def c2sys : Sys :=
  ⟨⟨1, [⟨0, 1, 7, 5, 0, 0⟩]⟩,
   ⟨12, [⟨10, "A", 2, 100, [], 0, 0⟩, ⟨11, "B", 2, 1, [], 0, 0⟩]⟩,
   ⟨2, [⟨0, 1, 10⟩, ⟨1, 1, 11⟩]⟩,
   ⟨0, []⟩⟩

/-- C2 counterexample: logging score 42 on date 7 at time 50 from `c2sys`
creates a new data point (the store now holds ids 0 and 1), but competition
A's data list gains id 0 — the older same-date record handed back by the
re-read inside `log` — and not the new data point's id 1, contradicting the
claim that A's list gains exactly the new id. -/
theorem logData_pushes_stale_id :
    ((Routes.logData c2sys 1 false 7 42 50).2.tracking.docs.map (·._id)) = [0, 1] ∧
    (Competing.findById (Routes.logData c2sys 1 false 7 42 50).2.competing 10).map
      (·.data) = some [0] :=
  ⟨rfl, rfl⟩

/-- C2 as amended: user U is a member of exactly competitions A (not yet
ended) and B (ended) — the two memberships in either order — and U has no
stored data point on the logged date. Then `logData` creates the new data
point for U, returns it successfully, A's data list gains exactly the new
data point's id, and B's data list is unchanged: B's fan-out write fails with
CompetitionEnded in isolation, whether it runs before or after the sibling
write to A. When U already has a data point on that date, the id pushed to A
is the one of the earliest such record (see the C2 counterexample), so the
freshness hypothesis is required. -/
theorem logData_fanout (sys : Sys) (U aId bId : Nat) (A B : CompDoc)
    (date score now : Int) (ma mb : MemDoc)
    (hmem : Joining.getUserMemberships sys.joining U = [ma, mb] ∨
      Joining.getUserMemberships sys.joining U = [mb, ma])
    (hma : ma.group = aId) (hmb : mb.group = bId)
    (hA : Competing.findById sys.competing aId = some A)
    (hB : Competing.findById sys.competing bId = some B)
    (hAactive : ¬A.endDate < now)
    (hBended : B.endDate < now)
    (hfresh : sys.tracking.docs.find? (fun x => x.user == U && x.date == date) = none) :
    (Routes.logData sys U false date score now).1 =
      .ok ⟨sys.tracking.counter, U, date, score, now, now⟩ ∧
    (Routes.logData sys U false date score now).2.tracking.docs =
      sys.tracking.docs ++ [⟨sys.tracking.counter, U, date, score, now, now⟩] ∧
    Competing.findById (Routes.logData sys U false date score now).2.competing aId =
      some { A with data := A.data ++ [sys.tracking.counter] } ∧
    Competing.findById (Routes.logData sys U false date score now).2.competing bId =
      some B := by
  have hne : aId ≠ bId := by
    intro he
    rw [he, hB] at hA
    have hAB : A = B := by
      injection hA with h1
      exact h1.symm
    rw [hAB] at hAactive
    exact hAactive hBended
  have hlog : Tracking.log sys.tracking U date score now =
      (.ok ⟨sys.tracking.counter, U, date, score, now, now⟩,
       ⟨sys.tracking.counter + 1,
        sys.tracking.docs ++ [⟨sys.tracking.counter, U, date, score, now, now⟩]⟩) := by
    unfold Tracking.log
    simp only [readFirst]
    rw [find?_append_none _ hfresh]
    simp [List.find?]
  have hstep1 : Competing.inputData sys.competing ma.group sys.tracking.counter now =
      (.ok "Data successfully added!",
       ⟨sys.competing.counter,
        updateFirst (fun x => x._id == aId)
          (fun x => { x with data := x.data ++ [sys.tracking.counter] })
          sys.competing.comps⟩) := by
    rw [hma]
    unfold Competing.inputData
    rw [hA]
    simp [hAactive]
  have hfind1b : Competing.findById
      ⟨sys.competing.counter,
       updateFirst (fun x => x._id == aId)
         (fun x => { x with data := x.data ++ [sys.tracking.counter] })
         sys.competing.comps⟩ bId = some B := by
    unfold Competing.findById readFirst
    rw [find?_updateFirst_disjoint]
    · exact hB
    · intro x hx
      have hxa : x._id = aId := by simpa using hx
      constructor
      · simp [hxa]
        exact hne
      · simp [hxa]
        exact hne
  have hfind1a : Competing.findById
      ⟨sys.competing.counter,
       updateFirst (fun x => x._id == aId)
         (fun x => { x with data := x.data ++ [sys.tracking.counter] })
         sys.competing.comps⟩ aId =
      some { A with data := A.data ++ [sys.tracking.counter] } := by
    unfold Competing.findById readFirst
    unfold Competing.findById readFirst at hA
    exact find?_updateFirst_self (fun x => rfl) hA
  have hstep2 : Competing.inputData
      ⟨sys.competing.counter,
       updateFirst (fun x => x._id == aId)
         (fun x => { x with data := x.data ++ [sys.tracking.counter] })
         sys.competing.comps⟩ mb.group sys.tracking.counter now =
      (.error .competitionEnded,
       ⟨sys.competing.counter,
        updateFirst (fun x => x._id == aId)
          (fun x => { x with data := x.data ++ [sys.tracking.counter] })
          sys.competing.comps⟩) := by
    rw [hmb]
    unfold Competing.inputData
    rw [hfind1b]
    simp [hBended]
  have hstepB : Competing.inputData sys.competing mb.group sys.tracking.counter now =
      (.error .competitionEnded, sys.competing) := by
    rw [hmb]
    unfold Competing.inputData
    rw [hB]
    simp [hBended]
  have hroute : Routes.logData sys U false date score now =
      (.ok ⟨sys.tracking.counter, U, date, score, now, now⟩,
       { sys with
          tracking := ⟨sys.tracking.counter + 1,
            sys.tracking.docs ++ [⟨sys.tracking.counter, U, date, score, now, now⟩]⟩,
          competing := ⟨sys.competing.counter,
            updateFirst (fun x => x._id == aId)
              (fun x => { x with data := x.data ++ [sys.tracking.counter] })
              sys.competing.comps⟩ }) := by
    unfold Routes.logData
    rw [hlog]
    rcases hmem with hmem | hmem
    · simp only [hmem, List.foldl]
      rw [hstep1]
      simp only
      rw [hstep2]
      simp
    · simp only [hmem, List.foldl]
      rw [hstepB]
      simp only
      rw [hstep1]
      simp
  refine ⟨?_, ?_, ?_, ?_⟩
  · rw [hroute]
  · rw [hroute]
  · rw [hroute]
    exact hfind1a
  · rw [hroute]
    exact hfind1b

/-- The C2 scenario state with no prior data point for user 1. -/
def c2sysFresh : Sys :=
  ⟨⟨0, []⟩,
   ⟨12, [⟨10, "A", 2, 100, [], 0, 0⟩, ⟨11, "B", 2, 1, [], 0, 0⟩]⟩,
   ⟨2, [⟨0, 1, 10⟩, ⟨1, 1, 11⟩]⟩,
   ⟨0, []⟩⟩

/-- The C2 scenario state with the memberships in the other insertion order:
user 1 joined the ended competition B before the active competition A. -/
def c2sysFreshRev : Sys :=
  ⟨⟨0, []⟩,
   ⟨12, [⟨10, "A", 2, 100, [], 0, 0⟩, ⟨11, "B", 2, 1, [], 0, 0⟩]⟩,
   ⟨2, [⟨0, 1, 11⟩, ⟨1, 1, 10⟩]⟩,
   ⟨0, []⟩⟩

/-- Witness for `logData_fanout` at concrete inputs, exercising both
membership orders: A joined first, and B joined first (the failing fan-out
write preceding the sibling write). -/
theorem logData_fanout_witness :
    ((Routes.logData c2sysFresh 1 false 7 42 50).1 = .ok ⟨0, 1, 7, 42, 50, 50⟩ ∧
     Competing.findById (Routes.logData c2sysFresh 1 false 7 42 50).2.competing 10 =
       some ⟨10, "A", 2, 100, [0], 0, 0⟩ ∧
     Competing.findById (Routes.logData c2sysFresh 1 false 7 42 50).2.competing 11 =
       some ⟨11, "B", 2, 1, [], 0, 0⟩) ∧
    ((Routes.logData c2sysFreshRev 1 false 7 42 50).1 = .ok ⟨0, 1, 7, 42, 50, 50⟩ ∧
     Competing.findById (Routes.logData c2sysFreshRev 1 false 7 42 50).2.competing 10 =
       some ⟨10, "A", 2, 100, [0], 0, 0⟩ ∧
     Competing.findById (Routes.logData c2sysFreshRev 1 false 7 42 50).2.competing 11 =
       some ⟨11, "B", 2, 1, [], 0, 0⟩) :=
  have h1 := logData_fanout c2sysFresh 1 10 11 ⟨10, "A", 2, 100, [], 0, 0⟩
    ⟨11, "B", 2, 1, [], 0, 0⟩ 7 42 50 ⟨0, 1, 10⟩ ⟨1, 1, 11⟩ (Or.inl rfl) rfl rfl rfl rfl
    (by decide) (by decide) rfl
  have h2 := logData_fanout c2sysFreshRev 1 10 11 ⟨10, "A", 2, 100, [], 0, 0⟩
    ⟨11, "B", 2, 1, [], 0, 0⟩ 7 42 50 ⟨1, 1, 10⟩ ⟨0, 1, 11⟩ (Or.inr rfl) rfl rfl rfl rfl
    (by decide) (by decide) rfl
  ⟨⟨h1.1, h1.2.2.1, h1.2.2.2⟩, ⟨h2.1, h2.2.2.1, h2.2.2.2⟩⟩

end Backend
